import Mathlib

/-!
Verification of the uStreamer CPU JPEG encoder (`src/ustreamer/encoders/cpu/encoder.c`).

The pixel-format converters and scanline feeders are shallowly embedded:
a source raster is a total function `Nat → Nat` giving the byte at each
absolute offset (the C code trusts the caller's declared dimensions and
performs no bounds checks on the source buffer), machine `int` arithmetic
is carried out in `Int` (the intermediate values stay far from 2^31, so no
overflow reduction is needed), and the C right shift `>> 8` on `int` is the
arithmetic shift, i.e. floor division by 256.
-/

namespace UStreamer

/-- A byte buffer: the byte stored at each absolute offset. -/
abbrev Buf := Nat → Nat

/-- C arithmetic right shift `>> 8` on `int`: floor division by `256`. -/
def shr8 (x : Int) : Int := Int.fdiv x 256

/-- The inline clamp used by the semi-planar converters:
`v = (v < 0) ? 0 : ((v > 255) ? 255 : v)`. -/
def clamp255 (x : Int) : Int := if x < 0 then 0 else if 255 < x then 255 else x

/-! ### Indexing lemmas for the flattened double loops

Each converter is a nested `for` loop writing a fixed number of bytes per
iteration; its output buffer is embedded as the flat list of bytes in write
order, i.e. `(List.range n).flatMap f` with every `f k` of one length. -/

theorem flatMap_range_len {α : Type} (f : Nat → List α) (L : Nat)
    (hf : ∀ k, (f k).length = L) (n : Nat) :
    ((List.range n).flatMap f).length = n * L := by
  induction n with
  | zero => simp
  | succ n ih =>
      rw [List.range_succ, List.flatMap_append]
      simp [ih, hf, Nat.succ_mul]

theorem flatMap_range_getElem {α : Type} (f : Nat → List α) (L : Nat)
    (hf : ∀ k, (f k).length = L) (n i r : Nat) (hi : i < n) (hr : r < L) :
    ((List.range n).flatMap f)[i * L + r]? = (f i)[r]? := by
  induction n with
  | zero => omega
  | succ n ih =>
      rw [List.range_succ, List.flatMap_append]
      rcases Nat.lt_or_ge i n with h | h
      · rw [List.getElem?_append]
        have hlen : ((List.range n).flatMap f).length = n * L :=
          flatMap_range_len f L hf n
        have hlt : i * L + r < n * L := by
          calc i * L + r < i * L + L := by omega
            _ = (i + 1) * L := by ring
            _ ≤ n * L := Nat.mul_le_mul_right L h
        rw [hlen, if_pos hlt]
        exact ih h
      · have hieq : i = n := by omega
        subst hieq
        have hlen : ((List.range i).flatMap f).length = i * L :=
          flatMap_range_len f L hf i
        rw [List.getElem?_append_right (by omega)]
        simp [hlen]

theorem flatMap_range_congr {α : Type} {f g : Nat → List α} (n : Nat)
    (h : ∀ i, i < n → f i = g i) :
    (List.range n).flatMap f = (List.range n).flatMap g := by
  induction n with
  | zero => simp
  | succ n ih =>
      rw [List.range_succ, List.flatMap_append, List.flatMap_append]
      rw [ih (fun i hi => h i (by omega))]
      simp [h n (by omega)]

/-! ### Semi-planar converters

Transcriptions of `_nv12_to_rgb24`, `_nv16_to_rgb24`, `_nv24_to_rgb24`:
nested row (`i`) / column (`j`) loops, each iteration writing the three
clamped bytes at `out[y_index*3 .. y_index*3+2]`; the output buffer is the
flat list of those bytes in write order, the loop body factored out as a
per-pixel function. -/

/-- Loop body of `_nv12_to_rgb24`: 4:2:0 chroma at `(i/2)*width + 2*(j/2)`
past the `width*height`-byte luma plane. -/
def nv12Pixel (inp : Buf) (width height i j : Nat) : List Nat :=
  let frame_size := width * height
  let uv_offset := frame_size
  let uv_index := i / 2 * width + 2 * (j / 2)
  let Y : Int := inp (i * width + j)
  let U : Int := inp (uv_offset + uv_index)
  let V : Int := inp (uv_offset + uv_index + 1)
  let C := Y - 16
  let D := U - 128
  let E := V - 128
  let R := shr8 (298 * C + 409 * E + 128)
  let G := shr8 (298 * C - 100 * D - 208 * E + 128)
  let B := shr8 (298 * C + 516 * D + 128)
  [(clamp255 R).toNat, (clamp255 G).toNat, (clamp255 B).toNat]

/-- `_nv12_to_rgb24`, flattened in write order. -/
def nv12_to_rgb24 (inp : Buf) (width height : Nat) : List Nat :=
  (List.range height).flatMap fun i =>
    (List.range width).flatMap fun j => nv12Pixel inp width height i j

/-- Loop body of `_nv16_to_rgb24`: 4:2:2 chroma at
`uv_offset + i*width + (j & ~1)`; `j & ~1` (clear the low bit) is written
`2 * (j / 2)`. -/
def nv16Pixel (inp : Buf) (width height i j : Nat) : List Nat :=
  let frame_size := width * height
  let uv_offset := frame_size
  let uv_index := uv_offset + i * width + 2 * (j / 2)
  let Y : Int := inp (i * width + j)
  let U : Int := (inp uv_index : Int) - 128
  let V : Int := (inp (uv_index + 1) : Int) - 128
  let R := shr8 (298 * (Y - 16) + 409 * V + 128)
  let G := shr8 (298 * (Y - 16) - 100 * U - 208 * V + 128)
  let B := shr8 (298 * (Y - 16) + 516 * U + 128)
  [(clamp255 R).toNat, (clamp255 G).toNat, (clamp255 B).toNat]

/-- `_nv16_to_rgb24`, flattened in write order. -/
def nv16_to_rgb24 (inp : Buf) (width height : Nat) : List Nat :=
  (List.range height).flatMap fun i =>
    (List.range width).flatMap fun j => nv16Pixel inp width height i j

/-- Loop body of `_nv24_to_rgb24`: 4:4:4 chroma at
`uv_offset + 2*j + i*width*2`. -/
def nv24Pixel (inp : Buf) (width height i j : Nat) : List Nat :=
  let frame_size := width * height
  let uv_offset := frame_size
  let uv_index := uv_offset + 2 * j + i * width * 2
  let Y : Int := inp (i * width + j)
  let U : Int := (inp uv_index : Int) - 128
  let V : Int := (inp (uv_index + 1) : Int) - 128
  let R := shr8 (298 * (Y - 16) + 409 * V + 128)
  let G := shr8 (298 * (Y - 16) - 100 * U - 208 * V + 128)
  let B := shr8 (298 * (Y - 16) + 516 * U + 128)
  [(clamp255 R).toNat, (clamp255 G).toNat, (clamp255 B).toNat]

/-- `_nv24_to_rgb24`, flattened in write order. -/
def nv24_to_rgb24 (inp : Buf) (width height : Nat) : List Nat :=
  (List.range height).flatMap fun i =>
    (List.range width).flatMap fun j => nv24Pixel inp width height i j

theorem nv12_getElem (inp : Buf) (width height row col r : Nat)
    (hrow : row < height) (hcol : col < width) (hr : r < 3) :
    (nv12_to_rgb24 inp width height)[row * (width * 3) + (col * 3 + r)]? =
      (nv12Pixel inp width height row col)[r]? := by
  unfold nv12_to_rgb24
  rw [flatMap_range_getElem _ (width * 3)
    (fun i => flatMap_range_len (nv12Pixel inp width height i) 3 (fun _ => rfl) width)
    height row (col * 3 + r) hrow (by omega)]
  exact flatMap_range_getElem (nv12Pixel inp width height row) 3 (fun _ => rfl)
    width col r hcol hr

/-- C4: the NV12 converter reads the chroma pair at plane offset
`(row/2)*width + 2*(col/2)` past the `width*height`-byte luma plane and,
with `C = Y-16` and chroma bias-subtracted by 128, writes
`clamp ((298*C + 409*V + 128) >> 8)` (and the G/B analogues) at output
index `(row*width + col)*3`. -/
theorem nv12_pixel_spec (inp : Buf) (width height row col : Nat)
    (hrow : row < height) (hcol : col < width) :
    (nv12_to_rgb24 inp width height)[(row * width + col) * 3]? =
      some (clamp255 (shr8 (298 * ((inp (row * width + col) : Int) - 16)
        + 409 * ((inp (width * height + (row / 2 * width + 2 * (col / 2)) + 1) : Int) - 128)
        + 128))).toNat
  ∧ (nv12_to_rgb24 inp width height)[(row * width + col) * 3 + 1]? =
      some (clamp255 (shr8 (298 * ((inp (row * width + col) : Int) - 16)
        - 100 * ((inp (width * height + (row / 2 * width + 2 * (col / 2))) : Int) - 128)
        - 208 * ((inp (width * height + (row / 2 * width + 2 * (col / 2)) + 1) : Int) - 128)
        + 128))).toNat
  ∧ (nv12_to_rgb24 inp width height)[(row * width + col) * 3 + 2]? =
      some (clamp255 (shr8 (298 * ((inp (row * width + col) : Int) - 16)
        + 516 * ((inp (width * height + (row / 2 * width + 2 * (col / 2))) : Int) - 128)
        + 128))).toNat := by
  refine ⟨?_, ?_, ?_⟩
  · have h := nv12_getElem inp width height row col 0 hrow hcol (by omega)
    rw [show row * (width * 3) + (col * 3 + 0) = (row * width + col) * 3 by ring] at h
    rw [h]; rfl
  · have h := nv12_getElem inp width height row col 1 hrow hcol (by omega)
    rw [show row * (width * 3) + (col * 3 + 1) = (row * width + col) * 3 + 1 by ring] at h
    rw [h]; rfl
  · have h := nv12_getElem inp width height row col 2 hrow hcol (by omega)
    rw [show row * (width * 3) + (col * 3 + 2) = (row * width + col) * 3 + 2 by ring] at h
    rw [h]; rfl

/-- Witness for `nv12_pixel_spec` at a concrete 2×2 frame. -/
theorem nv12_pixel_spec_witness :
    (nv12_to_rgb24 (fun k => if k = 3 then 200 else if k = 4 then 90 else if k = 5 then 160 else 50) 2 2)[(1 * 2 + 1) * 3]? =
      some (clamp255 (shr8 (298 * (((fun k => if k = 3 then 200 else if k = 4 then 90 else if k = 5 then 160 else 50) (1 * 2 + 1) : Int) - 16)
        + 409 * (((fun k => if k = 3 then 200 else if k = 4 then 90 else if k = 5 then 160 else 50) (2 * 2 + (1 / 2 * 2 + 2 * (1 / 2)) + 1) : Int) - 128)
        + 128))).toNat := by
  exact (nv12_pixel_spec (fun k => if k = 3 then 200 else if k = 4 then 90 else if k = 5 then 160 else 50)
    2 2 1 1 (by omega) (by omega)).1

theorem nv12Pixel_neutral (inp : Buf) (width height : Nat)
    (hch : ∀ k, width * height ≤ k → inp k = 128) (i j : Nat) :
    nv12Pixel inp width height i j =
      [(clamp255 (shr8 (298 * ((inp (i * width + j) : Int) - 16) + 128))).toNat,
       (clamp255 (shr8 (298 * ((inp (i * width + j) : Int) - 16) + 128))).toNat,
       (clamp255 (shr8 (298 * ((inp (i * width + j) : Int) - 16) + 128))).toNat] := by
  have h1 : inp (width * height + (i / 2 * width + 2 * (j / 2))) = 128 := hch _ (by omega)
  have h2 : inp (width * height + (i / 2 * width + 2 * (j / 2)) + 1) = 128 := hch _ (by omega)
  simp [nv12Pixel, h1, h2]

theorem nv16Pixel_neutral (inp : Buf) (width height : Nat)
    (hch : ∀ k, width * height ≤ k → inp k = 128) (i j : Nat) :
    nv16Pixel inp width height i j =
      [(clamp255 (shr8 (298 * ((inp (i * width + j) : Int) - 16) + 128))).toNat,
       (clamp255 (shr8 (298 * ((inp (i * width + j) : Int) - 16) + 128))).toNat,
       (clamp255 (shr8 (298 * ((inp (i * width + j) : Int) - 16) + 128))).toNat] := by
  have h1 : inp (width * height + i * width + 2 * (j / 2)) = 128 := hch _ (by omega)
  have h2 : inp (width * height + i * width + 2 * (j / 2) + 1) = 128 := hch _ (by omega)
  simp [nv16Pixel, h1, h2]

theorem nv24Pixel_neutral (inp : Buf) (width height : Nat)
    (hch : ∀ k, width * height ≤ k → inp k = 128) (i j : Nat) :
    nv24Pixel inp width height i j =
      [(clamp255 (shr8 (298 * ((inp (i * width + j) : Int) - 16) + 128))).toNat,
       (clamp255 (shr8 (298 * ((inp (i * width + j) : Int) - 16) + 128))).toNat,
       (clamp255 (shr8 (298 * ((inp (i * width + j) : Int) - 16) + 128))).toNat] := by
  have h1 : inp (width * height + 2 * j + i * width * 2) = 128 := hch _ (by omega)
  have h2 : inp (width * height + 2 * j + i * width * 2 + 1) = 128 := hch _ (by omega)
  simp [nv24Pixel, h1, h2]

/-- C6: when every byte of the chroma plane (every offset past the
`width*height`-byte luma plane) is 128, the three semi-planar converters
produce identical output, and every pixel's R, G and B channels all equal
the same gray level `clamp ((298*(Y-16) + 128) >> 8)` derived from that
pixel's luma byte alone. -/
theorem nv_neutral_gray (inp : Buf) (width height : Nat)
    (hch : ∀ k, width * height ≤ k → inp k = 128) :
    nv12_to_rgb24 inp width height = nv16_to_rgb24 inp width height
  ∧ nv12_to_rgb24 inp width height = nv24_to_rgb24 inp width height
  ∧ ∀ row col, row < height → col < width →
      ((nv12_to_rgb24 inp width height)[(row * width + col) * 3]? =
          some (clamp255 (shr8 (298 * ((inp (row * width + col) : Int) - 16) + 128))).toNat
        ∧ (nv12_to_rgb24 inp width height)[(row * width + col) * 3 + 1]? =
          some (clamp255 (shr8 (298 * ((inp (row * width + col) : Int) - 16) + 128))).toNat
        ∧ (nv12_to_rgb24 inp width height)[(row * width + col) * 3 + 2]? =
          some (clamp255 (shr8 (298 * ((inp (row * width + col) : Int) - 16) + 128))).toNat) := by
  refine ⟨?_, ?_, ?_⟩
  · unfold nv12_to_rgb24 nv16_to_rgb24
    refine flatMap_range_congr height fun i _ => ?_
    refine flatMap_range_congr width fun j _ => ?_
    rw [nv12Pixel_neutral inp width height hch i j, nv16Pixel_neutral inp width height hch i j]
  · unfold nv12_to_rgb24 nv24_to_rgb24
    refine flatMap_range_congr height fun i _ => ?_
    refine flatMap_range_congr width fun j _ => ?_
    rw [nv12Pixel_neutral inp width height hch i j, nv24Pixel_neutral inp width height hch i j]
  · intro row col hrow hcol
    refine ⟨?_, ?_, ?_⟩
    · have h := nv12_getElem inp width height row col 0 hrow hcol (by omega)
      rw [show row * (width * 3) + (col * 3 + 0) = (row * width + col) * 3 by ring] at h
      rw [h, nv12Pixel_neutral inp width height hch row col]; rfl
    · have h := nv12_getElem inp width height row col 1 hrow hcol (by omega)
      rw [show row * (width * 3) + (col * 3 + 1) = (row * width + col) * 3 + 1 by ring] at h
      rw [h, nv12Pixel_neutral inp width height hch row col]; rfl
    · have h := nv12_getElem inp width height row col 2 hrow hcol (by omega)
      rw [show row * (width * 3) + (col * 3 + 2) = (row * width + col) * 3 + 2 by ring] at h
      rw [h, nv12Pixel_neutral inp width height hch row col]; rfl

/-- Witness for `nv_neutral_gray`: a concrete 2×2 frame with neutral chroma. -/
theorem nv_neutral_gray_witness :
    nv12_to_rgb24 (fun k => if k < 4 then 10 * k + 5 else 128) 2 2 =
      nv16_to_rgb24 (fun k => if k < 4 then 10 * k + 5 else 128) 2 2 :=
  (nv_neutral_gray (fun k => if k < 4 then 10 * k + 5 else 128) 2 2
    (fun k hk => by show (if k < 4 then 10 * k + 5 else 128) = 128; rw [if_neg (by omega : ¬ k < 4)])).1

/-! ### Semi-planar scanline feeders and padding (C1)

`_jpeg_write_scanlines_nv12` / `_nv16` / `_nv24` convert the whole frame
into an intermediate RGB buffer of exactly `width*height*3` bytes and then
feed `height` scanlines, advancing the read pointer by
`width*3 + padding` per row.  The compressor consumes `width*3` bytes per
scanline; a read past the end of the intermediate buffer (which the C code
performs whenever `padding ≠ 0` and `height > 1`) is modelled as byte 0 —
the theorems below do not depend on that choice. -/

/-- `width*3` bytes read from the intermediate RGB buffer starting at `base`. -/
def readRow (rgb : List Nat) (base width : Nat) : List Nat :=
  (List.range (width * 3)).map fun r => rgb.getD (base + r) 0

/-- `_jpeg_write_scanlines_nv12`. -/
def jpeg_write_scanlines_nv12 (inp : Buf) (width height padding : Nat) : List (List Nat) :=
  let rgb := nv12_to_rgb24 inp width height
  (List.range height).map fun i => readRow rgb (i * (width * 3 + padding)) width

/-- `_jpeg_write_scanlines_nv16`. -/
def jpeg_write_scanlines_nv16 (inp : Buf) (width height padding : Nat) : List (List Nat) :=
  let rgb := nv16_to_rgb24 inp width height
  (List.range height).map fun i => readRow rgb (i * (width * 3 + padding)) width

/-- `_jpeg_write_scanlines_nv24`. -/
def jpeg_write_scanlines_nv24 (inp : Buf) (width height padding : Nat) : List (List Nat) :=
  let rgb := nv24_to_rgb24 inp width height
  (List.range height).map fun i => readRow rgb (i * (width * 3 + padding)) width

/-- A 2×2 NV12 frame with one byte of row padding (stride 3): logical luma
bytes at offsets 0,1 (row 0) and 3,4 (row 1), row-padding bytes at offsets
2 and 5, chroma pair at offsets 6,7.  All logical bytes are fixed; the
padding byte at offset 2 is the frame's only degree of freedom below. -/
def c1FrameA : Buf := fun k =>
  if k = 0 then 100 else if k = 1 then 100 else if k = 2 then 0
  else if k = 3 then 90 else if k = 4 then 128 else if k = 5 then 0
  else if k = 6 then 128 else if k = 7 then 128 else 0

/-- The same frame as `c1FrameA` except that the row-0 padding byte at
offset 2 holds 77 instead of 0; every logical pixel byte is identical. -/
def c1FrameB : Buf := fun k => if k = 2 then 77 else c1FrameA k

/-- C1 fails on the code: two NV12 frames that differ only in the value of
a padding byte (offset 2, the row-0 padding byte of a width-2, padding-1
frame) produce different RGB scanline sequences, because `_nv12_to_rgb24`
indexes the source without accounting for row padding (so the padding byte
is read as the luma of pixel (1,0)) and the feeder advances through the
unpadded intermediate buffer by `width*3 + padding`. -/
theorem nv12_padding_leak :
    c1FrameB 0 = c1FrameA 0 ∧ c1FrameB 1 = c1FrameA 1
  ∧ c1FrameB 3 = c1FrameA 3 ∧ c1FrameB 4 = c1FrameA 4
  ∧ c1FrameB 5 = c1FrameA 5 ∧ c1FrameB 6 = c1FrameA 6
  ∧ c1FrameB 7 = c1FrameA 7
  ∧ jpeg_write_scanlines_nv12 c1FrameA 2 2 1 ≠ jpeg_write_scanlines_nv12 c1FrameB 2 2 1 := by
  refine ⟨rfl, rfl, rfl, rfl, rfl, rfl, rfl, ?_⟩
  decide

/-! ### Packed 4:2:2 paths (`_jpeg_write_scanlines_yuyv` / `_uyvy`)

The two C functions are identical except for which of the four bytes of a
2-pixel group hold luma and chroma, so the loop skeleton is shared and
parametrised by the per-pixel conversion. -/

/-- `YUV_R(y,u,v) = ((y + 359*v) >> 8)`. -/
def YUV_R (y u v : Int) : Int := shr8 (y + 359 * v)

/-- `YUV_G(y,u,v) = ((y - 88*u - 183*v) >> 8)`. -/
def YUV_G (y u v : Int) : Int := shr8 (y - 88 * u - 183 * v)

/-- `YUV_B(y,u,v) = ((y + 454*u) >> 8)`. -/
def YUV_B (y u v : Int) : Int := shr8 (y + 454 * u)

/-- `NORM_COMPONENT(x) = (x > 255) ? 255 : ((x < 0) ? 0 : x)`. -/
def NORM_COMPONENT (x : Int) : Int := if 255 < x then 255 else if x < 0 then 0 else x

/-- One pixel of the `_jpeg_write_scanlines_yuyv` inner loop: `off` is the
current `data` offset, `z` the group flag (`false`: first pixel of the
2-pixel group, luma `data[0] << 8`; `true`: second pixel, luma
`data[2] << 8`); shared chroma `u = data[1] - 128`, `v = data[3] - 128`. -/
def yuyvPixel (data : Buf) (off : Nat) (z : Bool) : List Nat :=
  let y : Int := (if z then (data (off + 2) : Int) else (data off : Int)) * 256
  let u : Int := (data (off + 1) : Int) - 128
  let v : Int := (data (off + 3) : Int) - 128
  [(NORM_COMPONENT (YUV_R y u v)).toNat,
   (NORM_COMPONENT (YUV_G y u v)).toNat,
   (NORM_COMPONENT (YUV_B y u v)).toNat]

/-- One pixel of the `_jpeg_write_scanlines_uyvy` inner loop: luma
`data[1] << 8` / `data[3] << 8`, chroma `u = data[0] - 128`,
`v = data[2] - 128`. -/
def uyvyPixel (data : Buf) (off : Nat) (z : Bool) : List Nat :=
  let y : Int := (if z then (data (off + 3) : Int) else (data (off + 1) : Int)) * 256
  let u : Int := (data off : Int) - 128
  let v : Int := (data (off + 2) : Int) - 128
  [(NORM_COMPONENT (YUV_R y u v)).toNat,
   (NORM_COMPONENT (YUV_G y u v)).toNat,
   (NORM_COMPONENT (YUV_B y u v)).toNat]

/-- The inner `for (x = 0; x < width; ++x)` loop shared by the two packed
4:2:2 feeders: emits one scanline and returns the `data` offset and `z`
flag after the loop (both persist across rows in the C code);
`if (z++) { z = 0; data += 4; }` advances the offset after the second
pixel of each group. -/
def packed422RowLoop (pix : Nat → Bool → List Nat) :
    Nat → Nat → Bool → List Nat × Nat × Bool
  | 0, off, z => ([], off, z)
  | n + 1, off, z =>
      let px := pix off z
      let rest := packed422RowLoop pix n (cond z (off + 4) off) (!z)
      (px ++ rest.1, rest.2)

/-- The outer `while (next_scanline < height)` loop: after each row the
offset advances by `padding`. -/
def packed422ScanLoop (pix : Nat → Bool → List Nat) (width padding : Nat) :
    Nat → Nat → Bool → List (List Nat)
  | 0, _, _ => []
  | rows + 1, off, z =>
      let row := packed422RowLoop pix width off z
      row.1 :: packed422ScanLoop pix width padding rows (row.2.1 + padding) row.2.2

/-- `_jpeg_write_scanlines_yuyv`. -/
def jpeg_write_scanlines_yuyv (data : Buf) (width height padding : Nat) : List (List Nat) :=
  packed422ScanLoop (yuyvPixel data) width padding height 0 false

/-- `_jpeg_write_scanlines_uyvy`. -/
def jpeg_write_scanlines_uyvy (data : Buf) (width height padding : Nat) : List (List Nat) :=
  packed422ScanLoop (uyvyPixel data) width padding height 0 false

theorem packed422RowLoop_even (pix : Nat → Bool → List Nat) (m : Nat) : ∀ off,
    packed422RowLoop pix (2 * m) off false =
      ((List.range m).flatMap fun g => pix (off + 4 * g) false ++ pix (off + 4 * g) true,
       off + 4 * m, false) := by
  induction m with
  | zero => intro off; simp [packed422RowLoop]
  | succ m ih =>
      intro off
      have h2 : 2 * (m + 1) = 2 * m + 1 + 1 := by ring
      rw [h2]
      simp only [packed422RowLoop, Bool.cond_false, Bool.cond_true, Bool.not_false,
        Bool.not_true]
      rw [ih (off + 4)]
      rw [List.range_succ_eq_map, List.flatMap_cons, List.flatMap_map]
      refine congrArg₂ Prod.mk ?_ ?_
      · have hcongr : ((List.range m).flatMap fun g =>
              pix (off + 4 * (g + 1)) false ++ pix (off + 4 * (g + 1)) true)
            = (List.range m).flatMap fun g =>
              pix (off + 4 + 4 * g) false ++ pix (off + 4 + 4 * g) true :=
          flatMap_range_congr m
            (fun g _ => by rw [show off + 4 * (g + 1) = off + 4 + 4 * g by ring])
        simp only [Nat.succ_eq_add_one]
        rw [hcongr]
        simp [List.append_assoc]
      · rw [show off + 4 * (m + 1) = off + 4 + 4 * m by ring]

theorem packed422ScanLoop_even (pix : Nat → Bool → List Nat) (m padding : Nat) :
    ∀ rows off,
    packed422ScanLoop pix (2 * m) padding rows off false =
      (List.range rows).map fun i =>
        (packed422RowLoop pix (2 * m) (off + i * (4 * m + padding)) false).1 := by
  intro rows
  induction rows with
  | zero => intro off; simp [packed422ScanLoop]
  | succ rows ih =>
      intro off
      simp only [packed422ScanLoop]
      rw [packed422RowLoop_even pix m off]
      simp only []
      rw [ih (off + 4 * m + padding)]
      rw [List.range_succ_eq_map, List.map_cons, List.map_map]
      refine congrArg₂ List.cons ?_ ?_
      · rw [packed422RowLoop_even pix m]
        simp
      · refine List.map_congr_left fun i _ => ?_
        simp only [Function.comp, Nat.succ_eq_add_one]
        rw [show off + (i + 1) * (4 * m + padding)
            = off + 4 * m + padding + i * (4 * m + padding) by ring]

/-- `scans[row][idx]`, as an `Option`. -/
def scanByte (scans : List (List Nat)) (row idx : Nat) : Option Nat :=
  (scans[row]?).bind fun ln => ln[idx]?

/-- Start offset of the 4-byte 2-pixel group holding pixel `(row, col)` on
the packed 4:2:2 paths (even `width`): each row consumes `2*width` data
bytes plus `padding`; each group 4 bytes. -/
def groupOff422 (width padding row col : Nat) : Nat :=
  row * (2 * width + padding) + 4 * (col / 2)

theorem packed422_scanByte (pix : Nat → Bool → List Nat)
    (hlen : ∀ off z, (pix off z).length = 3)
    (m padding height row col c : Nat)
    (hrow : row < height) (hcol : col < 2 * m) (hc : c < 3) :
    scanByte (packed422ScanLoop pix (2 * m) padding height 0 false) row (3 * col + c) =
      (pix (row * (4 * m + padding) + 4 * (col / 2)) (col % 2 == 1))[c]? := by
  unfold scanByte
  rw [packed422ScanLoop_even pix m padding height 0]
  rw [List.getElem?_map, List.getElem?_range hrow, Option.map_some']
  rw [show ∀ a : List Nat, (some a).bind (fun ln => ln[3 * col + c]?)
      = a[3 * col + c]? from fun _ => rfl]
  rw [packed422RowLoop_even pix m]
  dsimp only
  have hidx : 3 * col + c = (col / 2) * 6 + (3 * (col % 2) + c) := by omega
  rw [hidx]
  rw [flatMap_range_getElem _ 6
    (fun g => by rw [List.length_append, hlen, hlen]) m (col / 2) (3 * (col % 2) + c)
    (by omega) (by omega)]
  rcases Nat.mod_two_eq_zero_or_one col with h2 | h2 <;> rw [h2]
  · rw [List.getElem?_append, hlen, if_pos (by omega)]
    simp
  · rw [List.getElem?_append_right (by rw [hlen]; omega), hlen]
    simp

theorem yuyv_channel (data : Buf) (m padding height row col c : Nat)
    (hrow : row < height) (hcol : col < 2 * m) (hc : c < 3) :
    scanByte (jpeg_write_scanlines_yuyv data (2 * m) height padding) row (3 * col + c) =
      (yuyvPixel data (groupOff422 (2 * m) padding row col) (col % 2 == 1))[c]? := by
  unfold jpeg_write_scanlines_yuyv
  rw [packed422_scanByte (yuyvPixel data) (fun _ _ => rfl) m padding height row col c hrow hcol hc]
  simp only [groupOff422]
  rw [show row * (2 * (2 * m) + padding) + 4 * (col / 2)
      = row * (4 * m + padding) + 4 * (col / 2) by ring]

theorem uyvy_channel (data : Buf) (m padding height row col c : Nat)
    (hrow : row < height) (hcol : col < 2 * m) (hc : c < 3) :
    scanByte (jpeg_write_scanlines_uyvy data (2 * m) height padding) row (3 * col + c) =
      (uyvyPixel data (groupOff422 (2 * m) padding row col) (col % 2 == 1))[c]? := by
  unfold jpeg_write_scanlines_uyvy
  rw [packed422_scanByte (uyvyPixel data) (fun _ _ => rfl) m padding height row col c hrow hcol hc]
  simp only [groupOff422]
  rw [show row * (2 * (2 * m) + padding) + 4 * (col / 2)
      = row * (4 * m + padding) + 4 * (col / 2) by ring]

/-- C3: on the packed 4:2:2 paths (even `width`), pixel `(row, col)` with
luma byte `Y` (group offset +0/+2 for YUYV, +1/+3 for UYVY; the second
pixel of a group reads the later position) and the group's shared chroma
bytes `U`, `V` is converted to exactly
`R = clamp ((256*Y + 359*(V-128)) >> 8)`,
`G = clamp ((256*Y - 88*(U-128) - 183*(V-128)) >> 8)`,
`B = clamp ((256*Y + 454*(U-128)) >> 8)`,
where `>>` is the truncating arithmetic right shift (floor division by 256,
not round-to-nearest), no 16-black-level offset is applied, and out-of-range
values are clamped to `[0,255]` rather than wrapping. -/
theorem packed422_formula (data : Buf) (width height padding row col : Nat)
    (hw : 2 ∣ width) (hrow : row < height) (hcol : col < width) :
    (scanByte (jpeg_write_scanlines_yuyv data width height padding) row (3 * col) =
        some (NORM_COMPONENT (shr8 (256 * (data (groupOff422 width padding row col
            + (if col % 2 = 1 then 2 else 0)) : Int)
          + 359 * ((data (groupOff422 width padding row col + 3) : Int) - 128)))).toNat
      ∧ scanByte (jpeg_write_scanlines_yuyv data width height padding) row (3 * col + 1) =
        some (NORM_COMPONENT (shr8 (256 * (data (groupOff422 width padding row col
            + (if col % 2 = 1 then 2 else 0)) : Int)
          - 88 * ((data (groupOff422 width padding row col + 1) : Int) - 128)
          - 183 * ((data (groupOff422 width padding row col + 3) : Int) - 128)))).toNat
      ∧ scanByte (jpeg_write_scanlines_yuyv data width height padding) row (3 * col + 2) =
        some (NORM_COMPONENT (shr8 (256 * (data (groupOff422 width padding row col
            + (if col % 2 = 1 then 2 else 0)) : Int)
          + 454 * ((data (groupOff422 width padding row col + 1) : Int) - 128)))).toNat)
  ∧ (scanByte (jpeg_write_scanlines_uyvy data width height padding) row (3 * col) =
        some (NORM_COMPONENT (shr8 (256 * (data (groupOff422 width padding row col
            + (if col % 2 = 1 then 3 else 1)) : Int)
          + 359 * ((data (groupOff422 width padding row col + 2) : Int) - 128)))).toNat
      ∧ scanByte (jpeg_write_scanlines_uyvy data width height padding) row (3 * col + 1) =
        some (NORM_COMPONENT (shr8 (256 * (data (groupOff422 width padding row col
            + (if col % 2 = 1 then 3 else 1)) : Int)
          - 88 * ((data (groupOff422 width padding row col) : Int) - 128)
          - 183 * ((data (groupOff422 width padding row col + 2) : Int) - 128)))).toNat
      ∧ scanByte (jpeg_write_scanlines_uyvy data width height padding) row (3 * col + 2) =
        some (NORM_COMPONENT (shr8 (256 * (data (groupOff422 width padding row col
            + (if col % 2 = 1 then 3 else 1)) : Int)
          + 454 * ((data (groupOff422 width padding row col) : Int) - 128)))).toNat) := by
  obtain ⟨m, hm⟩ := hw
  subst hm
  refine ⟨⟨?_, ?_, ?_⟩, ⟨?_, ?_, ?_⟩⟩
  · have h := yuyv_channel data m padding height row col 0 hrow hcol (by omega)
    rw [Nat.add_zero] at h
    rw [h]
    rcases Nat.mod_two_eq_zero_or_one col with h2 | h2 <;>
      simp only [h2, yuyvPixel, YUV_R, YUV_G, YUV_B] <;> norm_num <;>
      (congr 3; ring)
  · have h := yuyv_channel data m padding height row col 1 hrow hcol (by omega)
    rw [h]
    rcases Nat.mod_two_eq_zero_or_one col with h2 | h2 <;>
      simp only [h2, yuyvPixel, YUV_R, YUV_G, YUV_B] <;> norm_num <;>
      (congr 3; ring)
  · have h := yuyv_channel data m padding height row col 2 hrow hcol (by omega)
    rw [h]
    rcases Nat.mod_two_eq_zero_or_one col with h2 | h2 <;>
      simp only [h2, yuyvPixel, YUV_R, YUV_G, YUV_B] <;> norm_num <;>
      (congr 3; ring)
  · have h := uyvy_channel data m padding height row col 0 hrow hcol (by omega)
    rw [Nat.add_zero] at h
    rw [h]
    rcases Nat.mod_two_eq_zero_or_one col with h2 | h2 <;>
      simp only [h2, uyvyPixel, YUV_R, YUV_G, YUV_B] <;> norm_num <;>
      (congr 3; ring)
  · have h := uyvy_channel data m padding height row col 1 hrow hcol (by omega)
    rw [h]
    rcases Nat.mod_two_eq_zero_or_one col with h2 | h2 <;>
      simp only [h2, uyvyPixel, YUV_R, YUV_G, YUV_B] <;> norm_num <;>
      (congr 3; ring)
  · have h := uyvy_channel data m padding height row col 2 hrow hcol (by omega)
    rw [h]
    rcases Nat.mod_two_eq_zero_or_one col with h2 | h2 <;>
      simp only [h2, uyvyPixel, YUV_R, YUV_G, YUV_B] <;> norm_num <;>
      (congr 3; ring)

theorem shr8_mul256 (n : Nat) : shr8 ((n : Int) * 256) = n := by
  unfold shr8
  exact Int.mul_fdiv_cancel _ (by norm_num)

theorem NORM_byte (n : Nat) (h : n < 256) : (NORM_COMPONENT (n : Int)).toNat = n := by
  unfold NORM_COMPONENT
  rw [if_neg (by push_cast; omega), if_neg (by push_cast; omega)]
  exact Int.toNat_natCast n

theorem yuyvPixel_neutral (data : Buf) (off : Nat) (z : Bool) (hb : ∀ k, data k < 256)
    (hu : data (off + 1) = 128) (hv : data (off + 3) = 128) :
    yuyvPixel data off z =
      [if z then data (off + 2) else data off,
       if z then data (off + 2) else data off,
       if z then data (off + 2) else data off] := by
  cases z <;>
    simp only [yuyvPixel, hu, hv, YUV_R, YUV_G, YUV_B, if_true, if_false, Bool.false_eq_true,
      Bool.true_eq_false, ite_true, ite_false] <;>
    norm_num <;>
    simp [shr8_mul256, NORM_byte _ (hb _)]

theorem uyvyPixel_neutral (data : Buf) (off : Nat) (z : Bool) (hb : ∀ k, data k < 256)
    (hu : data off = 128) (hv : data (off + 2) = 128) :
    uyvyPixel data off z =
      [if z then data (off + 3) else data (off + 1),
       if z then data (off + 3) else data (off + 1),
       if z then data (off + 3) else data (off + 1)] := by
  cases z <;>
    simp only [uyvyPixel, hu, hv, YUV_R, YUV_G, YUV_B, if_true, if_false, Bool.false_eq_true,
      Bool.true_eq_false, ite_true, ite_false] <;>
    norm_num <;>
    simp [shr8_mul256, NORM_byte _ (hb _)]

/-- C9: on the packed 4:2:2 paths, when every chroma byte of the frame is
128 (neutral chroma), every output pixel is exactly `(Y, Y, Y)` where `Y`
is that pixel's luma byte: `(256*Y) >> 8` recovers `Y` with no rounding
loss and the clamp is the identity; no 16-level black offset is applied. -/
theorem packed422_neutral_gray (data : Buf) (width height padding row col : Nat)
    (hw : 2 ∣ width) (hrow : row < height) (hcol : col < width)
    (hbytes : ∀ k, data k < 256) :
    ((∀ r c, r < height → c < width →
        data (groupOff422 width padding r c + 1) = 128
        ∧ data (groupOff422 width padding r c + 3) = 128) →
      (scanByte (jpeg_write_scanlines_yuyv data width height padding) row (3 * col) =
          some (data (groupOff422 width padding row col + (if col % 2 = 1 then 2 else 0)))
        ∧ scanByte (jpeg_write_scanlines_yuyv data width height padding) row (3 * col + 1) =
          some (data (groupOff422 width padding row col + (if col % 2 = 1 then 2 else 0)))
        ∧ scanByte (jpeg_write_scanlines_yuyv data width height padding) row (3 * col + 2) =
          some (data (groupOff422 width padding row col + (if col % 2 = 1 then 2 else 0)))))
  ∧ ((∀ r c, r < height → c < width →
        data (groupOff422 width padding r c) = 128
        ∧ data (groupOff422 width padding r c + 2) = 128) →
      (scanByte (jpeg_write_scanlines_uyvy data width height padding) row (3 * col) =
          some (data (groupOff422 width padding row col + (if col % 2 = 1 then 3 else 1)))
        ∧ scanByte (jpeg_write_scanlines_uyvy data width height padding) row (3 * col + 1) =
          some (data (groupOff422 width padding row col + (if col % 2 = 1 then 3 else 1)))
        ∧ scanByte (jpeg_write_scanlines_uyvy data width height padding) row (3 * col + 2) =
          some (data (groupOff422 width padding row col + (if col % 2 = 1 then 3 else 1))))) := by
  obtain ⟨m, hm⟩ := hw
  subst hm
  constructor
  · intro hch
    obtain ⟨hu, hv⟩ := hch row col hrow hcol
    have hpx := yuyvPixel_neutral data (groupOff422 (2 * m) padding row col)
      (col % 2 == 1) hbytes hu hv
    refine ⟨?_, ?_, ?_⟩
    · have h := yuyv_channel data m padding height row col 0 hrow hcol (by omega)
      rw [Nat.add_zero] at h
      rw [h, hpx]
      rcases Nat.mod_two_eq_zero_or_one col with h2 | h2 <;> simp [h2]
    · have h := yuyv_channel data m padding height row col 1 hrow hcol (by omega)
      rw [h, hpx]
      rcases Nat.mod_two_eq_zero_or_one col with h2 | h2 <;> simp [h2]
    · have h := yuyv_channel data m padding height row col 2 hrow hcol (by omega)
      rw [h, hpx]
      rcases Nat.mod_two_eq_zero_or_one col with h2 | h2 <;> simp [h2]
  · intro hch
    obtain ⟨hu, hv⟩ := hch row col hrow hcol
    have hpx := uyvyPixel_neutral data (groupOff422 (2 * m) padding row col)
      (col % 2 == 1) hbytes hu hv
    refine ⟨?_, ?_, ?_⟩
    · have h := uyvy_channel data m padding height row col 0 hrow hcol (by omega)
      rw [Nat.add_zero] at h
      rw [h, hpx]
      rcases Nat.mod_two_eq_zero_or_one col with h2 | h2 <;> simp [h2]
    · have h := uyvy_channel data m padding height row col 1 hrow hcol (by omega)
      rw [h, hpx]
      rcases Nat.mod_two_eq_zero_or_one col with h2 | h2 <;> simp [h2]
    · have h := uyvy_channel data m padding height row col 2 hrow hcol (by omega)
      rw [h, hpx]
      rcases Nat.mod_two_eq_zero_or_one col with h2 | h2 <;> simp [h2]

/-- A concrete frame for the `packed422_formula` witness. -/
def c3Data : Buf := fun _ => 60

/-- Witness for `packed422_formula` at a concrete 2×1 YUYV frame. -/
theorem packed422_formula_witness :
    scanByte (jpeg_write_scanlines_yuyv c3Data 2 1 0) 0 (3 * 1) =
      some (NORM_COMPONENT (shr8 (256 * (c3Data (groupOff422 2 0 0 1
          + (if 1 % 2 = 1 then 2 else 0)) : Int)
        + 359 * ((c3Data (groupOff422 2 0 0 1 + 3) : Int) - 128)))).toNat :=
  (packed422_formula c3Data 2 1 0 0 1 (by decide) (by decide) (by decide)).1.1

/-- A concrete all-128 frame for the `packed422_neutral_gray` witness. -/
def c9Data : Buf := fun _ => 128

/-- Witness for `packed422_neutral_gray` at a concrete 2×1 frame. -/
theorem packed422_neutral_gray_witness :
    scanByte (jpeg_write_scanlines_yuyv c9Data 2 1 0) 0 (3 * 0) =
      some (c9Data (groupOff422 2 0 0 0 + (if 0 % 2 = 1 then 2 else 0))) :=
  ((packed422_neutral_gray c9Data 2 1 0 0 0 (by decide) (by decide) (by decide)
    (fun _ => by norm_num [c9Data])).1 (fun _ _ _ _ => ⟨rfl, rfl⟩)).1

/-! ### `_jpeg_write_scanlines_rgb565` -/

/-- One pixel of `_jpeg_write_scanlines_rgb565`:
`two_byte = (data[1] << 8) + data[0]`, `R = data[1] & 248`,
`G = (two_byte & 2016) >> 3`, `B = (data[0] & 31) * 8`. -/
def rgb565Pixel (data : Buf) (off : Nat) : List Nat :=
  let two_byte := data (off + 1) * 256 + data off
  [data (off + 1) &&& 248, (two_byte &&& 2016) >>> 3, (data off &&& 31) * 8]

/-- `_jpeg_write_scanlines_rgb565`: the data pointer advances 2 bytes per
pixel and `padding` more after each row, so pixel `(i, x)` reads at offset
`i*(2*width+padding) + 2*x`. -/
def jpeg_write_scanlines_rgb565 (data : Buf) (width height padding : Nat) : List (List Nat) :=
  (List.range height).map fun i =>
    (List.range width).flatMap fun x => rgb565Pixel data (i * (2 * width + padding) + 2 * x)

theorem rgb565_scanByte (data : Buf) (width height padding row col c : Nat)
    (hrow : row < height) (hcol : col < width) (hc : c < 3) :
    scanByte (jpeg_write_scanlines_rgb565 data width height padding) row (3 * col + c) =
      (rgb565Pixel data (row * (2 * width + padding) + 2 * col))[c]? := by
  unfold scanByte jpeg_write_scanlines_rgb565
  rw [List.getElem?_map, List.getElem?_range hrow, Option.map_some']
  rw [show ∀ a : List Nat, (some a).bind (fun ln => ln[3 * col + c]?)
      = a[3 * col + c]? from fun _ => rfl]
  rw [show 3 * col + c = col * 3 + c by ring]
  rw [flatMap_range_getElem
    (fun x => rgb565Pixel data (row * (2 * width + padding) + 2 * x)) 3
    (fun _ => rfl) width col c hcol hc]

/-- C2 fails on the code: the all-bits-set RGB565 frame does not decode to
full white (255,255,255); the extracted bit fields are shifted into the
high bits without replication. -/
theorem rgb565_all_ones_not_white :
    jpeg_write_scanlines_rgb565 (fun _ => 255) 1 1 0 ≠ [[255, 255, 255]] := by
  decide

/-- C2 amended: for packed 5-6-5 input with every bit of every pixel set,
every pixel of every scanline decodes to (248, 252, 248). -/
theorem rgb565_all_ones_value (data : Buf) (width height padding row col : Nat)
    (hdata : ∀ k, data k = 255) (hrow : row < height) (hcol : col < width) :
    scanByte (jpeg_write_scanlines_rgb565 data width height padding) row (3 * col) = some 248
  ∧ scanByte (jpeg_write_scanlines_rgb565 data width height padding) row (3 * col + 1) = some 252
  ∧ scanByte (jpeg_write_scanlines_rgb565 data width height padding) row (3 * col + 2) = some 248 := by
  refine ⟨?_, ?_, ?_⟩
  · have h := rgb565_scanByte data width height padding row col 0 hrow hcol (by omega)
    rw [Nat.add_zero] at h
    rw [h]
    simp [rgb565Pixel, hdata]
    decide
  · rw [rgb565_scanByte data width height padding row col 1 hrow hcol (by omega)]
    simp [rgb565Pixel, hdata]
    decide
  · rw [rgb565_scanByte data width height padding row col 2 hrow hcol (by omega)]
    simp [rgb565Pixel, hdata]
    decide

/-- Witness for `rgb565_all_ones_value` at a concrete 1×1 frame. -/
theorem rgb565_all_ones_value_witness :
    scanByte (jpeg_write_scanlines_rgb565 (fun _ => 255) 1 1 0) 0 (3 * 0) = some 248 :=
  (rgb565_all_ones_value (fun _ => 255) 1 1 0 0 0 (fun _ => rfl)
    (by decide) (by decide)).1

theorem mod8_of_low_bits (y : Nat) (h : ∀ i, i < 3 → y.testBit i = false) : y % 8 = 0 := by
  rw [show (8:Nat) = 2 ^ 3 by norm_num]
  apply Nat.eq_of_testBit_eq
  intro i
  rw [Nat.testBit_mod_two_pow, Nat.zero_testBit]
  rcases Nat.lt_or_ge i 3 with hi | hi
  · rw [h i hi]; simp
  · rw [decide_eq_false (by omega : ¬ i < 3)]; simp

theorem mod4_of_low_bits (y : Nat) (h : ∀ i, i < 2 → y.testBit i = false) : y % 4 = 0 := by
  rw [show (4:Nat) = 2 ^ 2 by norm_num]
  apply Nat.eq_of_testBit_eq
  intro i
  rw [Nat.testBit_mod_two_pow, Nat.zero_testBit]
  rcases Nat.lt_or_ge i 2 with hi | hi
  · rw [h i hi]; simp
  · rw [decide_eq_false (by omega : ¬ i < 2)]; simp

theorem and248_mod8 (x : Nat) : (x &&& 248) % 8 = 0 := by
  apply mod8_of_low_bits
  intro i hi
  rw [Nat.testBit_and]
  interval_cases i <;>
    simp [show Nat.testBit 248 0 = false from by decide,
      show Nat.testBit 248 1 = false from by decide,
      show Nat.testBit 248 2 = false from by decide]

theorem and2016_shr3_mod4 (x : Nat) : ((x &&& 2016) >>> 3) % 4 = 0 := by
  apply mod4_of_low_bits
  intro i hi
  rw [Nat.testBit_shiftRight, Nat.testBit_and]
  interval_cases i <;>
    simp [show Nat.testBit 2016 3 = false from by decide,
      show Nat.testBit 2016 4 = false from by decide]

/-- C10: every RGB565 output channel is quantized: R and B are multiples of
8 at most 248, G is a multiple of 4 at most 252; no channel reaches 255. -/
theorem rgb565_quantized (data : Buf) (width height padding row col : Nat)
    (hrow : row < height) (hcol : col < width) :
    (∀ b, scanByte (jpeg_write_scanlines_rgb565 data width height padding) row (3 * col)
        = some b → b % 8 = 0 ∧ b ≤ 248 ∧ b ≠ 255)
  ∧ (∀ b, scanByte (jpeg_write_scanlines_rgb565 data width height padding) row (3 * col + 1)
        = some b → b % 4 = 0 ∧ b ≤ 252 ∧ b ≠ 255)
  ∧ (∀ b, scanByte (jpeg_write_scanlines_rgb565 data width height padding) row (3 * col + 2)
        = some b → b % 8 = 0 ∧ b ≤ 248 ∧ b ≠ 255) := by
  refine ⟨?_, ?_, ?_⟩
  · intro b hb
    have h := rgb565_scanByte data width height padding row col 0 hrow hcol (by omega)
    rw [Nat.add_zero] at h
    rw [h] at hb
    simp only [rgb565Pixel] at hb
    rw [show ∀ x y z : Nat, ([x, y, z] : List Nat)[0]? = some x from fun _ _ _ => rfl] at hb
    obtain rfl : data (row * (2 * width + padding) + 2 * col + 1) &&& 248 = b :=
      Option.some.inj hb
    refine ⟨and248_mod8 _, Nat.and_le_right, ?_⟩
    have := Nat.and_le_right (n := data (row * (2 * width + padding) + 2 * col + 1)) (m := 248)
    omega
  · intro b hb
    rw [rgb565_scanByte data width height padding row col 1 hrow hcol (by omega)] at hb
    simp only [rgb565Pixel] at hb
    rw [show ∀ x y z : Nat, ([x, y, z] : List Nat)[1]? = some y from fun _ _ _ => rfl] at hb
    obtain rfl := Option.some.inj hb
    refine ⟨and2016_shr3_mod4 _, ?_, ?_⟩ <;>
    · have hle : (data (row * (2 * width + padding) + 2 * col + 1) * 256
          + data (row * (2 * width + padding) + 2 * col)) &&& 2016 ≤ 2016 := Nat.and_le_right
      rw [Nat.shiftRight_eq_div_pow]
      have := Nat.div_le_div_right (c := 2 ^ 3) hle
      norm_num at this ⊢
      omega
  · intro b hb
    rw [rgb565_scanByte data width height padding row col 2 hrow hcol (by omega)] at hb
    simp only [rgb565Pixel] at hb
    rw [show ∀ x y z : Nat, ([x, y, z] : List Nat)[2]? = some z from fun _ _ _ => rfl] at hb
    obtain rfl := Option.some.inj hb
    have hle : data (row * (2 * width + padding) + 2 * col) &&& 31 ≤ 31 := Nat.and_le_right
    refine ⟨Nat.mul_mod_left _ 8, by omega, by omega⟩

/-- Witness for `rgb565_quantized` at a concrete 1×1 frame whose red
channel decodes to `201 &&& 248 = 200`. -/
theorem rgb565_quantized_witness : (200 : Nat) % 8 = 0 ∧ (200 : Nat) ≤ 248 ∧ (200 : Nat) ≠ 255 :=
  (rgb565_quantized (fun _ => 201) 1 1 0 0 0 (by decide) (by decide)).1 200 (by decide)

/-! ### Packed 24-bit feeders (`_jpeg_write_scanlines_bgr24` / `_rgb24`) -/

/-- One row of `_jpeg_write_scanlines_bgr24`: the loop
`for (x = 0; x < width*3; x += 3)` emits `data[x+2], data[x+1], data[x]`
(swapping B and R); `x = 3*px` for pixel `px`. -/
def bgr24Row (data : Buf) (base width : Nat) : List Nat :=
  (List.range width).flatMap fun px =>
    [data (base + 3 * px + 2), data (base + 3 * px + 1), data (base + 3 * px)]

/-- `_jpeg_write_scanlines_bgr24`: row `i` starts at `i*(width*3+padding)`. -/
def jpeg_write_scanlines_bgr24 (data : Buf) (width height padding : Nat) : List (List Nat) :=
  (List.range height).map fun i => bgr24Row data (i * (width * 3 + padding)) width

/-- One row of `_jpeg_write_scanlines_rgb24`: the row pointer is handed
straight to the compressor, which consumes `width*3` bytes of it. -/
def rgb24Row (data : Buf) (base width : Nat) : List Nat :=
  (List.range (width * 3)).map fun r => data (base + r)

/-- `_jpeg_write_scanlines_rgb24`: row `i` starts at `i*(width*3+padding)`. -/
def jpeg_write_scanlines_rgb24 (data : Buf) (width height padding : Nat) : List (List Nat) :=
  (List.range height).map fun i => rgb24Row data (i * (width * 3 + padding)) width

/-- Per-pixel byte swap of a packed 24-bit frame with row stride
`width*3 + padding`: within each 3-byte pixel of each logical row the
first and third bytes are exchanged (so B,G,R pixel values become R,G,B
and vice versa); padding bytes are left in place. -/
def swapRB (width padding : Nat) (data : Buf) : Buf := fun k =>
  let stride := width * 3 + padding
  let r := k % stride
  if r < width * 3 then data (k - r + 3 * (r / 3) + (2 - r % 3)) else data k

/-- C8: the BGR24 feeder on a buffer whose pixels are stored B,G,R emits
exactly the scanlines of the RGB24 feeder on the per-pixel byte-swapped
buffer (the same pixel values stored R,G,B), for every frame, row and
padding. -/
theorem bgr24_eq_rgb24_swapped (data : Buf) (width height padding : Nat) :
    jpeg_write_scanlines_bgr24 data width height padding =
      jpeg_write_scanlines_rgb24 (swapRB width padding data) width height padding := by
  unfold jpeg_write_scanlines_bgr24 jpeg_write_scanlines_rgb24
  refine List.map_congr_left fun i _ => ?_
  apply List.ext_getElem?
  intro idx
  rcases Nat.lt_or_ge idx (width * 3) with hidx | hidx
  · have hmod : idx % 3 = 0 ∨ idx % 3 = 1 ∨ idx % 3 = 2 := by omega
    have hL : (bgr24Row data (i * (width * 3 + padding)) width)[idx]? =
        some (data (i * (width * 3 + padding) + 3 * (idx / 3) + (2 - idx % 3))) := by
      conv_lhs => rw [← Nat.div_add_mod idx 3, Nat.mul_comm 3 (idx / 3)]
      rw [bgr24Row, flatMap_range_getElem
        (fun px => [data (i * (width * 3 + padding) + 3 * px + 2),
          data (i * (width * 3 + padding) + 3 * px + 1),
          data (i * (width * 3 + padding) + 3 * px)]) 3
        (fun _ => rfl) width (idx / 3) (idx % 3) (by omega) (by omega)]
      rcases hmod with h3 | h3 | h3 <;> rw [h3] <;> simp
    have hR : (rgb24Row (swapRB width padding data) (i * (width * 3 + padding)) width)[idx]? =
        some (swapRB width padding data (i * (width * 3 + padding) + idx)) := by
      rw [rgb24Row, List.getElem?_map, List.getElem?_range hidx, Option.map_some']
    have hswap : swapRB width padding data (i * (width * 3 + padding) + idx)
        = data (i * (width * 3 + padding) + 3 * (idx / 3) + (2 - idx % 3)) := by
      have hstride : idx < width * 3 + padding := by omega
      have hmod2 : (i * (width * 3 + padding) + idx) % (width * 3 + padding) = idx := by
        rw [Nat.mul_comm, Nat.mul_add_mod]
        exact Nat.mod_eq_of_lt hstride
      simp only [swapRB, hmod2]
      rw [if_pos hidx]
      congr 1
      omega
    rw [hL, hR, hswap]
  · rw [List.getElem?_eq_none (by
        rw [bgr24Row, flatMap_range_len
          (fun px => [data (i * (width * 3 + padding) + 3 * px + 2),
            data (i * (width * 3 + padding) + 3 * px + 1),
            data (i * (width * 3 + padding) + 3 * px)]) 3
          (fun _ => rfl) width]; omega),
      List.getElem?_eq_none (by
        rw [rgb24Row, List.length_map, List.length_range]; omega)]

/-! ### Streaming sink (`_jpeg_init_destination`, `_jpeg_empty_output_buffer`,
`_jpeg_term_destination`) -/

def JPEG_OUTPUT_BUFFER_SIZE : Nat := 4096

/-- Modelled from the spec: `us_frame_append_data` (frame.c, outside the
verified sources) appends the given bytes to the destination frame's
growable buffer; the frame's used-length is the buffer's length. -/
def us_frame_append_data (frame buf : List Nat) : List Nat := frame ++ buf

/-- `_jpeg_set_dest_frame` ends with `frame->used = 0`: the destination
starts empty. -/
def jpeg_set_dest_frame : List Nat := []

/-- `_jpeg_empty_output_buffer`: appends the full `JPEG_OUTPUT_BUFFER_SIZE`
chunk, resets the cursor and always reports success. -/
def jpeg_empty_output_buffer (frame chunk : List Nat) : List Nat :=
  us_frame_append_data frame chunk

/-- `_jpeg_term_destination`:
`final = JPEG_OUTPUT_BUFFER_SIZE - free_in_buffer` bytes remain valid in
the chunk buffer; append exactly those. -/
def jpeg_term_destination (frame chunk : List Nat) (free_in_buffer : Nat) : List Nat :=
  us_frame_append_data frame (chunk.take (JPEG_OUTPUT_BUFFER_SIZE - free_in_buffer))

/-- Modelled from the spec: the compressor writes its output stream into the
4096-byte chunk buffer, invoking `_jpeg_empty_output_buffer` whenever the
buffer fills with more output still to come, and at `jpeg_finish_compress`
invoking `_jpeg_term_destination` with `free_in_buffer` = 4096 minus the
bytes remaining in the chunk.  Returns the final destination frame, the
number of flush invocations, and the final `free_in_buffer`. -/
def driveSink (frame stream : List Nat) : List Nat × Nat × Nat :=
  if h : JPEG_OUTPUT_BUFFER_SIZE < stream.length then
    let next := driveSink
      (jpeg_empty_output_buffer frame (stream.take JPEG_OUTPUT_BUFFER_SIZE))
      (stream.drop JPEG_OUTPUT_BUFFER_SIZE)
    (next.1, next.2.1 + 1, next.2.2)
  else
    (jpeg_term_destination frame stream (JPEG_OUTPUT_BUFFER_SIZE - stream.length),
     0, JPEG_OUTPUT_BUFFER_SIZE - stream.length)
termination_by stream.length
decreasing_by
  simp only [List.length_drop, JPEG_OUTPUT_BUFFER_SIZE] at *
  omega

theorem driveSink_term (frame stream : List Nat)
    (hle : stream.length ≤ JPEG_OUTPUT_BUFFER_SIZE) :
    driveSink frame stream
      = (frame ++ stream, 0, JPEG_OUTPUT_BUFFER_SIZE - stream.length) := by
  unfold driveSink
  rw [dif_neg (by omega)]
  unfold jpeg_term_destination us_frame_append_data
  rw [show JPEG_OUTPUT_BUFFER_SIZE - (JPEG_OUTPUT_BUFFER_SIZE - stream.length)
      = stream.length by omega]
  rw [List.take_length]

theorem driveSink_go : ∀ n, ∀ stream : List Nat, stream.length ≤ n →
    ∀ frame : List Nat,
    (driveSink frame stream).1 = frame ++ stream
  ∧ stream.length = (driveSink frame stream).2.1 * JPEG_OUTPUT_BUFFER_SIZE
      + (JPEG_OUTPUT_BUFFER_SIZE - (driveSink frame stream).2.2)
  ∧ (driveSink frame stream).2.2 ≤ JPEG_OUTPUT_BUFFER_SIZE := by
  intro n
  induction n with
  | zero =>
      intro stream hlen frame
      have hle : stream.length ≤ JPEG_OUTPUT_BUFFER_SIZE := by
        simp only [JPEG_OUTPUT_BUFFER_SIZE]; omega
      rw [driveSink_term frame stream hle]
      refine ⟨rfl, ?_, ?_⟩ <;> simp <;> omega
  | succ n ih =>
      intro stream hlen frame
      rcases Nat.lt_or_ge JPEG_OUTPUT_BUFFER_SIZE stream.length with hgt | hle
      · have hrec := ih (stream.drop JPEG_OUTPUT_BUFFER_SIZE)
          (by simp only [List.length_drop, JPEG_OUTPUT_BUFFER_SIZE] at *; omega)
          (jpeg_empty_output_buffer frame (stream.take JPEG_OUTPUT_BUFFER_SIZE))
        obtain ⟨h1, h2, h3⟩ := hrec
        unfold driveSink
        rw [dif_pos hgt]
        refine ⟨?_, ?_, ?_⟩
        · show (driveSink (jpeg_empty_output_buffer frame
              (stream.take JPEG_OUTPUT_BUFFER_SIZE))
              (stream.drop JPEG_OUTPUT_BUFFER_SIZE)).1 = frame ++ stream
          rw [h1]
          unfold jpeg_empty_output_buffer us_frame_append_data
          rw [List.append_assoc, List.take_append_drop]
        · show stream.length = ((driveSink _ _).2.1 + 1) * JPEG_OUTPUT_BUFFER_SIZE
              + (JPEG_OUTPUT_BUFFER_SIZE - (driveSink _ _).2.2)
          rw [List.length_drop] at h2
          simp only [JPEG_OUTPUT_BUFFER_SIZE] at *
          omega
        · exact h3
      · rw [driveSink_term frame stream hle]
        refine ⟨rfl, ?_, ?_⟩ <;> simp only [JPEG_OUTPUT_BUFFER_SIZE] at * <;> omega

/-- C5: across one conversion call the destination frame starts empty
(`_jpeg_set_dest_frame` zeroes the used-length), every sink callback only
appends (the result always extends the incoming frame, so the used-length
is non-decreasing), no byte is appended twice and none is lost (the final
content is exactly the prior content followed by the compressed stream),
and the final used-length is `4096 * (number of flush invocations)` plus
`4096 - free_in_buffer` appended at finalize — i.e. the whole stream
length. -/
theorem sink_accumulates (stream : List Nat) :
    (∀ frame, (driveSink frame stream).1 = frame ++ stream)
  ∧ (driveSink jpeg_set_dest_frame stream).1 = stream
  ∧ (driveSink jpeg_set_dest_frame stream).1.length =
      (driveSink jpeg_set_dest_frame stream).2.1 * JPEG_OUTPUT_BUFFER_SIZE
        + (JPEG_OUTPUT_BUFFER_SIZE - (driveSink jpeg_set_dest_frame stream).2.2) := by
  have h := fun frame => driveSink_go stream.length stream (le_refl _) frame
  refine ⟨fun frame => (h frame).1, ?_, ?_⟩
  · rw [(h jpeg_set_dest_frame).1]
    unfold jpeg_set_dest_frame
    exact List.nil_append stream
  · rw [(h jpeg_set_dest_frame).1]
    unfold jpeg_set_dest_frame
    rw [List.nil_append]
    exact (h jpeg_set_dest_frame).2.1

/-! ### Format dispatch in `us_cpu_encoder_compress` -/

/-- `v4l2_fourcc(a,b,c,d)` from the V4L2 kernel headers (outside the
verified sources; the four character codes packed little-endian). -/
def v4l2_fourcc (a b c d : Nat) : Nat := a + b * 256 + c * 65536 + d * 16777216

def V4L2_PIX_FMT_YUYV : Nat := v4l2_fourcc 89 85 89 86

def V4L2_PIX_FMT_UYVY : Nat := v4l2_fourcc 85 89 86 89

def V4L2_PIX_FMT_RGB565 : Nat := v4l2_fourcc 82 71 66 80

def V4L2_PIX_FMT_NV12 : Nat := v4l2_fourcc 78 86 49 50

def V4L2_PIX_FMT_NV16 : Nat := v4l2_fourcc 78 86 49 54

def V4L2_PIX_FMT_BGR24 : Nat := v4l2_fourcc 66 71 82 51

def V4L2_PIX_FMT_RGB24 : Nat := v4l2_fourcc 82 71 66 51

def V4L2_PIX_FMT_NV24 : Nat := v4l2_fourcc 78 86 50 52

/-- The `switch (src->format)` of `us_cpu_encoder_compress`: each supported
tag selects its scanline feeder; the `default` branch is
`assert(0 && "Unsupported input format for CPU encoder")` — a fatal,
unrecoverable assertion, modelled as `none`. -/
def us_cpu_encoder_compress_dispatch (format : Nat) :
    Option (Buf → Nat → Nat → Nat → List (List Nat)) :=
  if format = V4L2_PIX_FMT_YUYV then some jpeg_write_scanlines_yuyv
  else if format = V4L2_PIX_FMT_UYVY then some jpeg_write_scanlines_uyvy
  else if format = V4L2_PIX_FMT_RGB565 then some jpeg_write_scanlines_rgb565
  else if format = V4L2_PIX_FMT_NV12 then some jpeg_write_scanlines_nv12
  else if format = V4L2_PIX_FMT_NV16 then some jpeg_write_scanlines_nv16
  else if format = V4L2_PIX_FMT_BGR24 then some jpeg_write_scanlines_bgr24
  else if format = V4L2_PIX_FMT_RGB24 then some jpeg_write_scanlines_rgb24
  else if format = V4L2_PIX_FMT_NV24 then some jpeg_write_scanlines_nv24
  else none

/-- C7: the compress entry point's dispatch maps each of the eight
enumerated format tags to exactly its matching scanline feeder, and any
tag outside the set falls into the fatal-assertion default (`none`):
nothing is returned, recovered or silently skipped. -/
theorem compress_dispatch_total (format : Nat) :
    (us_cpu_encoder_compress_dispatch V4L2_PIX_FMT_YUYV = some jpeg_write_scanlines_yuyv
      ∧ us_cpu_encoder_compress_dispatch V4L2_PIX_FMT_UYVY = some jpeg_write_scanlines_uyvy
      ∧ us_cpu_encoder_compress_dispatch V4L2_PIX_FMT_RGB565 = some jpeg_write_scanlines_rgb565
      ∧ us_cpu_encoder_compress_dispatch V4L2_PIX_FMT_NV12 = some jpeg_write_scanlines_nv12
      ∧ us_cpu_encoder_compress_dispatch V4L2_PIX_FMT_NV16 = some jpeg_write_scanlines_nv16
      ∧ us_cpu_encoder_compress_dispatch V4L2_PIX_FMT_BGR24 = some jpeg_write_scanlines_bgr24
      ∧ us_cpu_encoder_compress_dispatch V4L2_PIX_FMT_RGB24 = some jpeg_write_scanlines_rgb24
      ∧ us_cpu_encoder_compress_dispatch V4L2_PIX_FMT_NV24 = some jpeg_write_scanlines_nv24)
  ∧ (format ∉ [V4L2_PIX_FMT_YUYV, V4L2_PIX_FMT_UYVY, V4L2_PIX_FMT_RGB565,
        V4L2_PIX_FMT_NV12, V4L2_PIX_FMT_NV16, V4L2_PIX_FMT_BGR24,
        V4L2_PIX_FMT_RGB24, V4L2_PIX_FMT_NV24] →
      us_cpu_encoder_compress_dispatch format = none) := by
  constructor
  · exact ⟨rfl, rfl, rfl, rfl, rfl, rfl, rfl, rfl⟩
  · intro hf
    simp only [List.mem_cons, List.not_mem_nil, or_false, not_or] at hf
    obtain ⟨h1, h2, h3, h4, h5, h6, h7, h8⟩ := hf
    unfold us_cpu_encoder_compress_dispatch
    rw [if_neg h1, if_neg h2, if_neg h3, if_neg h4, if_neg h5, if_neg h6,
      if_neg h7, if_neg h8]

/-- Witness for `compress_dispatch_total`: tag 0 is unsupported and hits
the fatal default. -/
theorem compress_dispatch_witness : us_cpu_encoder_compress_dispatch 0 = none :=
  (compress_dispatch_total 0).2 (by decide)

end UStreamer
